import Mathlib

/-!
Shallow embedding of `include/internal/time.h` (OpenSSL internal time type):
an unsigned 64-bit tick count since the Unix epoch with saturating
arithmetic built on a checked-arithmetic primitive family.

Machine `uint64_t` values are modelled as natural numbers below `2 ^ 64`;
the `OSSL_TIME` structure carries that bound as an invariant, exactly as a
`uint64_t` field cannot hold anything larger.
-/

namespace OsslTime

/-- Number of distinct `uint64_t` values; all 64-bit unsigned arithmetic is
reduced modulo this bound. -/
def UINT64_BOUND : Nat := 2 ^ 64

/-- Largest `uint64_t` value, i.e. `~(uint64_t)0`. -/
def UINT64_MAX : Nat := UINT64_BOUND - 1

/-- Internal type defining a time (`OSSL_TIME`): a structure holding one
`uint64_t` field `t`, the ticks since the epoch. -/
@[ext]
structure OSSL_TIME where
  t : Nat
  ht : t < UINT64_BOUND

/-- The precision of times allows this many values per second
(`OSSL_TIME_SECOND`). -/
def OSSL_TIME_SECOND : Nat := 1000000000

/-- Convert a tick count into a time (`ossl_ticks2time`); the C argument is
a `uint64_t`, so the raw count comes with its 64-bit bound. -/
def ossl_ticks2time (ticks : Nat) (h : ticks < UINT64_BOUND) : OSSL_TIME :=
  ⟨ticks, h⟩

/-- Convert a time to a tick count (`ossl_time2ticks`). -/
def ossl_time2ticks (t : OSSL_TIME) : Nat := t.t

/-- The beginning of the time range (`ossl_time_zero`). -/
def ossl_time_zero : OSSL_TIME := ⟨0, by norm_num [UINT64_BOUND]⟩

/-- The end of the time range (`ossl_time_infinite`): tick count
`~(uint64_t)0`. -/
def ossl_time_infinite : OSSL_TIME :=
  ⟨UINT64_MAX, by norm_num [UINT64_MAX, UINT64_BOUND]⟩

/-- Modelled from the spec: the checked-add member of the external
`SafeArithmetic` collaborator (`safe_add_time`, generated by
`OSSL_SAFE_MATH_UNSIGNED(time, uint64_t)` in `internal/safe_math.h`, which is
outside this slice). It returns the wrapped 64-bit sum together with a flag
reporting overflow instead of wrapping silently. -/
def safe_add_time (a b : Nat) : Nat × Bool :=
  ((a + b) % UINT64_BOUND, decide (UINT64_BOUND ≤ a + b))

/-- Modelled from the spec: the checked-sub member of the external
`SafeArithmetic` collaborator (`safe_sub_time`). It returns the wrapped
64-bit difference together with a flag reporting underflow (`b > a`). -/
def safe_sub_time (a b : Nat) : Nat × Bool :=
  ((a + (UINT64_BOUND - b)) % UINT64_BOUND, decide (a < b))

/-- Modelled from the spec: the checked-mul member of the external
`SafeArithmetic` collaborator (`safe_mul_time`). It returns the wrapped
64-bit product together with a flag reporting overflow. -/
def safe_mul_time (a b : Nat) : Nat × Bool :=
  ((a * b) % UINT64_BOUND, decide (UINT64_BOUND ≤ a * b))

/-- Modelled from the spec: the checked-div member of the external
`SafeArithmetic` collaborator (`safe_div_time`). Division by zero is the
failure case; otherwise it returns the truncating unsigned quotient. -/
def safe_div_time (a b : Nat) : Nat × Bool :=
  if b = 0 then (0, true) else (a / b, false)

lemma safe_add_time_fst_lt (a b : Nat) : (safe_add_time a b).1 < UINT64_BOUND :=
  Nat.mod_lt _ (by norm_num [UINT64_BOUND])

lemma safe_sub_time_fst_lt (a b : Nat) : (safe_sub_time a b).1 < UINT64_BOUND :=
  Nat.mod_lt _ (by norm_num [UINT64_BOUND])

lemma safe_mul_time_fst_lt (a b : Nat) : (safe_mul_time a b).1 < UINT64_BOUND :=
  Nat.mod_lt _ (by norm_num [UINT64_BOUND])

lemma safe_div_time_fst_le (a b : Nat) : (safe_div_time a b).1 ≤ a := by
  unfold safe_div_time
  split
  · exact Nat.zero_le a
  · exact Nat.div_le_self a b

/-- Saturating addition (`ossl_time_add`): delegates to the checked
primitive and substitutes `ossl_time_infinite` on overflow. -/
def ossl_time_add (a b : OSSL_TIME) : OSSL_TIME :=
  if (safe_add_time a.t b.t).2 then ossl_time_infinite
  else ⟨(safe_add_time a.t b.t).1, safe_add_time_fst_lt a.t b.t⟩

/-- Saturating subtraction (`ossl_time_subtract`): delegates to the checked
primitive and substitutes `ossl_time_zero` on underflow. -/
def ossl_time_subtract (a b : OSSL_TIME) : OSSL_TIME :=
  if (safe_sub_time a.t b.t).2 then ossl_time_zero
  else ⟨(safe_sub_time a.t b.t).1, safe_sub_time_fst_lt a.t b.t⟩

/-- Absolute difference (`ossl_time_abs_difference`): returns `|a - b|`. -/
def ossl_time_abs_difference (a b : OSSL_TIME) : OSSL_TIME :=
  if a.t > b.t then ossl_time_subtract a b else ossl_time_subtract b a

/-- Saturating multiplication by a `uint64_t` scalar (`ossl_time_multiply`):
delegates to the checked primitive and substitutes `ossl_time_infinite` on
overflow. -/
def ossl_time_multiply (a : OSSL_TIME) (b : Nat) : OSSL_TIME :=
  if (safe_mul_time a.t b).2 then ossl_time_infinite
  else ⟨(safe_mul_time a.t b).1, safe_mul_time_fst_lt a.t b⟩

/-- Saturating division by a `uint64_t` scalar (`ossl_time_divide`):
delegates to the checked primitive and substitutes `ossl_time_zero` on
failure (division by zero). -/
def ossl_time_divide (a : OSSL_TIME) (b : Nat) : OSSL_TIME :=
  if (safe_div_time a.t b).2 then ossl_time_zero
  else ⟨(safe_div_time a.t b).1,
    lt_of_le_of_lt (safe_div_time_fst_le a.t b) a.ht⟩

/-- Convert time to timeval (`ossl_time_time_to_timeval`): the pair
`(tv_sec, tv_usec)` written into the output `struct timeval`. -/
def ossl_time_time_to_timeval (t : OSSL_TIME) : Nat × Nat :=
  (t.t / OSSL_TIME_SECOND,
   (t.t % OSSL_TIME_SECOND) / (OSSL_TIME_SECOND / 1000000))

/-- Compare two time values (`ossl_time_compare`): -1 if less, 1 if greater
and 0 if equal. -/
def ossl_time_compare (a b : OSSL_TIME) : Int :=
  if a.t > b.t then 1
  else if a.t < b.t then -1
  else 0

/-- Return the higher of the two given time values (`ossl_time_max`). -/
def ossl_time_max (a b : OSSL_TIME) : OSSL_TIME :=
  if a.t > b.t then a else b

/-- Return the lower of the two given time values (`ossl_time_min`). -/
def ossl_time_min (a b : OSSL_TIME) : OSSL_TIME :=
  if a.t < b.t then a else b

lemma add_t_of_lt {a b : OSSL_TIME} (h : a.t + b.t < UINT64_BOUND) :
    (ossl_time_add a b).t = a.t + b.t := by
  unfold ossl_time_add
  rw [if_neg (by simp [safe_add_time]; omega)]
  simp [safe_add_time, Nat.mod_eq_of_lt h]

lemma add_eq_inf_of_le {a b : OSSL_TIME} (h : UINT64_BOUND ≤ a.t + b.t) :
    ossl_time_add a b = ossl_time_infinite := by
  unfold ossl_time_add
  rw [if_pos (by simp [safe_add_time]; omega)]

lemma sub_t_of_le {a b : OSSL_TIME} (h : b.t ≤ a.t) :
    (ossl_time_subtract a b).t = a.t - b.t := by
  unfold ossl_time_subtract
  rw [if_neg (by simp [safe_sub_time]; omega)]
  have hb := b.ht
  have ha := a.ht
  simp only [safe_sub_time]
  have hsplit : a.t + (UINT64_BOUND - b.t) = (a.t - b.t) + UINT64_BOUND := by
    omega
  rw [hsplit, Nat.add_mod_right]
  exact Nat.mod_eq_of_lt (by omega)

lemma sub_eq_zero_of_lt {a b : OSSL_TIME} (h : a.t < b.t) :
    ossl_time_subtract a b = ossl_time_zero := by
  unfold ossl_time_subtract
  rw [if_pos (by simp [safe_sub_time]; omega)]

lemma mul_t_of_lt {a : OSSL_TIME} {s : Nat} (h : a.t * s < UINT64_BOUND) :
    (ossl_time_multiply a s).t = a.t * s := by
  unfold ossl_time_multiply
  rw [if_neg (by simp [safe_mul_time]; omega)]
  simp [safe_mul_time, Nat.mod_eq_of_lt h]

lemma mul_eq_inf_of_le {a : OSSL_TIME} {s : Nat}
    (h : UINT64_BOUND ≤ a.t * s) :
    ossl_time_multiply a s = ossl_time_infinite := by
  unfold ossl_time_multiply
  rw [if_pos (by simp [safe_mul_time]; omega)]

/-- C1: for all times `a` and `b`, `ossl_time_add` returns the exact tick
sum whenever it is representable in 64 bits and returns
`ossl_time_infinite` whenever the sum overflows; moreover
`ossl_time_zero` is a left identity, and adding one tick to
`ossl_time_infinite` stays infinite. -/
theorem ossl_time_add_saturates (a b : OSSL_TIME) :
    (a.t + b.t < UINT64_BOUND → (ossl_time_add a b).t = a.t + b.t) ∧
    (UINT64_BOUND ≤ a.t + b.t → ossl_time_add a b = ossl_time_infinite) ∧
    ossl_time_add ossl_time_zero a = a ∧
    ossl_time_add ossl_time_infinite
      (ossl_ticks2time 1 (by norm_num [UINT64_BOUND])) =
      ossl_time_infinite := by
  refine ⟨fun h => add_t_of_lt h, fun h => add_eq_inf_of_le h, ?_, ?_⟩
  · apply OSSL_TIME.ext
    rw [add_t_of_lt]
    · simp [ossl_time_zero]
    · have := a.ht
      simp [ossl_time_zero]
      omega
  · apply add_eq_inf_of_le
    simp [ossl_time_infinite, ossl_ticks2time, UINT64_MAX, UINT64_BOUND]

/-- Witness for C1: evaluates both branches of `ossl_time_add` through the
theorem at concrete inputs. -/
theorem ossl_time_add_saturates_witness :
    (ossl_time_add (ossl_ticks2time 3 (by norm_num [UINT64_BOUND]))
      (ossl_ticks2time 4 (by norm_num [UINT64_BOUND]))).t = 3 + 4 ∧
    ossl_time_add ossl_time_infinite ossl_time_infinite =
      ossl_time_infinite := by
  constructor
  · exact (ossl_time_add_saturates _ _).1
      (by norm_num [ossl_ticks2time, UINT64_BOUND])
  · exact (ossl_time_add_saturates _ _).2.1
      (by norm_num [ossl_time_infinite, UINT64_MAX, UINT64_BOUND])

/-- C2: for all times `a` and `b`, `ossl_time_subtract` returns the exact
tick difference whenever `b`'s ticks do not exceed `a`'s, and returns
`ossl_time_zero` whenever they do; in particular subtracting ten ticks
from five ticks yields zero. -/
theorem ossl_time_subtract_saturates (a b : OSSL_TIME) :
    (b.t ≤ a.t → (ossl_time_subtract a b).t = a.t - b.t) ∧
    (a.t < b.t → ossl_time_subtract a b = ossl_time_zero) ∧
    ossl_time_subtract (ossl_ticks2time 5 (by norm_num [UINT64_BOUND]))
      (ossl_ticks2time 10 (by norm_num [UINT64_BOUND])) =
      ossl_time_zero := by
  refine ⟨fun h => sub_t_of_le h, fun h => sub_eq_zero_of_lt h, ?_⟩
  apply sub_eq_zero_of_lt
  simp [ossl_ticks2time]

/-- Witness for C2: evaluates both branches of `ossl_time_subtract` through
the theorem at concrete inputs. -/
theorem ossl_time_subtract_saturates_witness :
    (ossl_time_subtract (ossl_ticks2time 10 (by norm_num [UINT64_BOUND]))
      (ossl_ticks2time 4 (by norm_num [UINT64_BOUND]))).t = 10 - 4 ∧
    ossl_time_subtract (ossl_ticks2time 4 (by norm_num [UINT64_BOUND]))
      (ossl_ticks2time 10 (by norm_num [UINT64_BOUND])) =
      ossl_time_zero := by
  constructor
  · exact (ossl_time_subtract_saturates _ _).1
      (by norm_num [ossl_ticks2time])
  · exact (ossl_time_subtract_saturates _ _).2.1
      (by norm_num [ossl_ticks2time])

/-- C3: `ossl_time_divide` by zero returns `ossl_time_zero` for every
time value, and for a nonzero scalar it returns the truncating unsigned
quotient of the tick count. -/
theorem ossl_time_divide_spec (x : OSSL_TIME) (s : Nat) :
    ossl_time_divide x 0 = ossl_time_zero ∧
    (s ≠ 0 → (ossl_time_divide x s).t = x.t / s) := by
  constructor
  · unfold ossl_time_divide
    rw [if_pos (by simp [safe_div_time])]
  · intro hs
    unfold ossl_time_divide
    rw [if_neg (by simp [safe_div_time, hs])]
    simp [safe_div_time, hs]

/-- Witness for C3: evaluates `ossl_time_divide` through the theorem at a
concrete nonzero divisor. -/
theorem ossl_time_divide_spec_witness :
    (ossl_time_divide (ossl_ticks2time 10 (by norm_num [UINT64_BOUND]))
      3).t = 10 / 3 :=
  (ossl_time_divide_spec _ 3).2 (by norm_num)

/-- C4: `ossl_time_abs_difference` agrees with subtracting the minimum from
the maximum, its tick count is the exact absolute difference of the tick
counts, and it is symmetric in its arguments. -/
theorem ossl_time_abs_difference_spec (a b : OSSL_TIME) :
    ossl_time_abs_difference a b =
      ossl_time_subtract (ossl_time_max a b) (ossl_time_min a b) ∧
    ((ossl_time_abs_difference a b).t : Int) =
      |(a.t : Int) - (b.t : Int)| ∧
    ossl_time_abs_difference a b = ossl_time_abs_difference b a := by
  rcases Nat.lt_trichotomy a.t b.t with h | h | h
  · have hmax : ossl_time_max a b = b := by
      unfold ossl_time_max; rw [if_neg (by omega)]
    have hmin : ossl_time_min a b = a := by
      unfold ossl_time_min; rw [if_pos h]
    have hd : ossl_time_abs_difference a b = ossl_time_subtract b a := by
      unfold ossl_time_abs_difference; rw [if_neg (by omega)]
    have hd2 : ossl_time_abs_difference b a = ossl_time_subtract b a := by
      unfold ossl_time_abs_difference; rw [if_pos h]
    refine ⟨by rw [hd, hmax, hmin], ?_, by rw [hd, hd2]⟩
    rw [hd, sub_t_of_le (le_of_lt h), abs_sub_comm,
      abs_of_nonneg (by omega : (0 : Int) ≤ (b.t : Int) - (a.t : Int))]
    omega
  · have hab : a = b := OSSL_TIME.ext h
    subst hab
    have hd : ossl_time_abs_difference a a = ossl_time_subtract a a := by
      unfold ossl_time_abs_difference; rw [if_neg (by omega)]
    have hmax : ossl_time_max a a = a := by
      unfold ossl_time_max; rw [if_neg (by omega)]
    have hmin : ossl_time_min a a = a := by
      unfold ossl_time_min; rw [if_neg (by omega)]
    refine ⟨by rw [hd, hmax, hmin], ?_, rfl⟩
    rw [hd, sub_t_of_le le_rfl]
    simp
  · have hmax : ossl_time_max a b = a := by
      unfold ossl_time_max; rw [if_pos h]
    have hmin : ossl_time_min a b = b := by
      unfold ossl_time_min; rw [if_neg (by omega)]
    have hd : ossl_time_abs_difference a b = ossl_time_subtract a b := by
      unfold ossl_time_abs_difference; rw [if_pos h]
    have hd2 : ossl_time_abs_difference b a = ossl_time_subtract a b := by
      unfold ossl_time_abs_difference; rw [if_neg (by omega)]
    refine ⟨by rw [hd, hmax, hmin], ?_, by rw [hd, hd2]⟩
    rw [hd, sub_t_of_le (le_of_lt h),
      abs_of_nonneg (by omega : (0 : Int) ≤ (a.t : Int) - (b.t : Int))]
    omega

/-- C5: for every time `a` and scalar `s`, `ossl_time_multiply` returns the
exact tick product whenever it is representable in 64 bits and returns
`ossl_time_infinite` whenever the product overflows; in particular
multiplying the maximal tick count by two saturates to infinity. -/
theorem ossl_time_multiply_saturates (a : OSSL_TIME) (s : Nat) :
    (a.t * s < UINT64_BOUND → (ossl_time_multiply a s).t = a.t * s) ∧
    (UINT64_BOUND ≤ a.t * s → ossl_time_multiply a s = ossl_time_infinite) ∧
    ossl_time_multiply
      (ossl_ticks2time UINT64_MAX (by norm_num [UINT64_MAX, UINT64_BOUND]))
      2 = ossl_time_infinite := by
  refine ⟨fun h => mul_t_of_lt h, fun h => mul_eq_inf_of_le h, ?_⟩
  apply mul_eq_inf_of_le
  simp [ossl_ticks2time, UINT64_MAX, UINT64_BOUND]

/-- Witness for C5: evaluates both branches of `ossl_time_multiply` through
the theorem at concrete inputs. -/
theorem ossl_time_multiply_saturates_witness :
    (ossl_time_multiply (ossl_ticks2time 3 (by norm_num [UINT64_BOUND]))
      4).t = 3 * 4 ∧
    ossl_time_multiply ossl_time_infinite 2 = ossl_time_infinite := by
  constructor
  · exact (ossl_time_multiply_saturates _ _).1
      (by norm_num [ossl_ticks2time, UINT64_BOUND])
  · exact (ossl_time_multiply_saturates _ _).2.1
      (by norm_num [ossl_time_infinite, UINT64_MAX, UINT64_BOUND])

/-- C6: `ossl_time_time_to_timeval` yields whole seconds as the tick count
divided by 1,000,000,000 and microseconds as the nanosecond remainder
divided by 1,000, always below 1,000,000; in particular 1,500,000,000
ticks split into one second and 500,000 microseconds. -/
theorem ossl_time_time_to_timeval_spec (t : OSSL_TIME) :
    ossl_time_time_to_timeval t =
      (t.t / 1000000000, t.t % 1000000000 / 1000) ∧
    (ossl_time_time_to_timeval t).2 ≤ 999999 ∧
    ossl_time_time_to_timeval
      (ossl_ticks2time 1500000000 (by norm_num [UINT64_BOUND])) =
      (1, 500000) := by
  refine ⟨rfl, ?_, rfl⟩
  show t.t % OSSL_TIME_SECOND / (OSSL_TIME_SECOND / 1000000) ≤ 999999
  have h : t.t % OSSL_TIME_SECOND ≤ 999999999 := by
    have := Nat.mod_lt t.t
      (show 0 < OSSL_TIME_SECOND by norm_num [OSSL_TIME_SECOND])
    simp only [OSSL_TIME_SECOND] at this ⊢
    omega
  calc t.t % OSSL_TIME_SECOND / (OSSL_TIME_SECOND / 1000000)
      ≤ 999999999 / (OSSL_TIME_SECOND / 1000000) :=
        Nat.div_le_div_right h
    _ = 999999 := by norm_num [OSSL_TIME_SECOND]

/-- C7: `ossl_time_compare` returns -1, 1 or 0 according to the strict
order on tick counts, is antisymmetric, and is reflexive. -/
theorem ossl_time_compare_spec (a b : OSSL_TIME) :
    (a.t < b.t → ossl_time_compare a b = -1) ∧
    (b.t < a.t → ossl_time_compare a b = 1) ∧
    (a.t = b.t → ossl_time_compare a b = 0) ∧
    ossl_time_compare a b = -ossl_time_compare b a ∧
    ossl_time_compare a a = 0 := by
  refine ⟨?_, ?_, ?_, ?_, ?_⟩
  · intro h
    unfold ossl_time_compare
    rw [if_neg (by omega), if_pos h]
  · intro h
    unfold ossl_time_compare
    rw [if_pos h]
  · intro h
    unfold ossl_time_compare
    rw [if_neg (by omega), if_neg (by omega)]
  · unfold ossl_time_compare
    rcases Nat.lt_trichotomy a.t b.t with h | h | h
    · rw [if_neg (by omega), if_pos h, if_pos h]
    · rw [if_neg (by omega), if_neg (by omega), if_neg (by omega),
        if_neg (by omega)]
      norm_num
    · rw [if_pos h, if_neg (by omega), if_pos h]
      norm_num
  · unfold ossl_time_compare
    rw [if_neg (by omega), if_neg (by omega)]

/-- Witness for C7: evaluates `ossl_time_compare` through the theorem at
concrete inputs for each outcome. -/
theorem ossl_time_compare_spec_witness :
    ossl_time_compare (ossl_ticks2time 1 (by norm_num [UINT64_BOUND]))
      (ossl_ticks2time 2 (by norm_num [UINT64_BOUND])) = -1 ∧
    ossl_time_compare (ossl_ticks2time 2 (by norm_num [UINT64_BOUND]))
      (ossl_ticks2time 1 (by norm_num [UINT64_BOUND])) = 1 ∧
    ossl_time_compare (ossl_ticks2time 2 (by norm_num [UINT64_BOUND]))
      (ossl_ticks2time 2 (by norm_num [UINT64_BOUND])) = 0 := by
  refine ⟨?_, ?_, ?_⟩
  · exact (ossl_time_compare_spec _ _).1 (by norm_num [ossl_ticks2time])
  · exact (ossl_time_compare_spec _ _).2.1 (by norm_num [ossl_ticks2time])
  · exact (ossl_time_compare_spec _ _).2.2.1 (by norm_num [ossl_ticks2time])

/-- C8: the pair of `ossl_time_min` and `ossl_time_max` is a permutation of
the two operands, and the minimum compares at most equal to the maximum. -/
theorem ossl_time_min_max_spec (a b : OSSL_TIME) :
    ((ossl_time_min a b = a ∧ ossl_time_max a b = b) ∨
     (ossl_time_min a b = b ∧ ossl_time_max a b = a)) ∧
    ossl_time_compare (ossl_time_min a b) (ossl_time_max a b) ≤ 0 := by
  rcases Nat.lt_trichotomy a.t b.t with h | h | h
  · have hmin : ossl_time_min a b = a := by
      unfold ossl_time_min; rw [if_pos h]
    have hmax : ossl_time_max a b = b := by
      unfold ossl_time_max; rw [if_neg (by omega)]
    refine ⟨Or.inl ⟨hmin, hmax⟩, ?_⟩
    rw [hmin, hmax]
    unfold ossl_time_compare
    rw [if_neg (by omega), if_pos h]
    norm_num
  · have hab : a = b := OSSL_TIME.ext h
    subst hab
    have hmin : ossl_time_min a a = a := by
      unfold ossl_time_min; rw [if_neg (by omega)]
    have hmax : ossl_time_max a a = a := by
      unfold ossl_time_max; rw [if_neg (by omega)]
    refine ⟨Or.inl ⟨hmin, hmax⟩, ?_⟩
    rw [hmin, hmax]
    unfold ossl_time_compare
    rw [if_neg (by omega), if_neg (by omega)]
  · have hmin : ossl_time_min a b = b := by
      unfold ossl_time_min; rw [if_neg (by omega)]
    have hmax : ossl_time_max a b = a := by
      unfold ossl_time_max; rw [if_pos h]
    refine ⟨Or.inr ⟨hmin, hmax⟩, ?_⟩
    rw [hmin, hmax]
    unfold ossl_time_compare
    rw [if_neg (by omega), if_pos h]
    norm_num

/-- C9: when the two operands have equal tick counts, both `ossl_time_max`
and `ossl_time_min` return the second operand. -/
theorem ossl_time_min_max_tie (a b : OSSL_TIME) (h : a.t = b.t) :
    ossl_time_max a b = b ∧ ossl_time_min a b = b := by
  unfold ossl_time_max ossl_time_min
  rw [if_neg (by omega), if_neg (by omega)]
  exact ⟨rfl, rfl⟩

/-- Witness for C9: applies the tie theorem at two equal concrete times. -/
theorem ossl_time_min_max_tie_witness :
    ossl_time_max (ossl_ticks2time 7 (by norm_num [UINT64_BOUND]))
      (ossl_ticks2time 7 (by norm_num [UINT64_BOUND])) =
      ossl_ticks2time 7 (by norm_num [UINT64_BOUND]) ∧
    ossl_time_min (ossl_ticks2time 7 (by norm_num [UINT64_BOUND]))
      (ossl_ticks2time 7 (by norm_num [UINT64_BOUND])) =
      ossl_ticks2time 7 (by norm_num [UINT64_BOUND]) :=
  ossl_time_min_max_tie _ _ rfl

/-- C10: below the saturation boundary, subtraction inverts addition:
if the tick sum is representable in 64 bits then subtracting `b` from
`ossl_time_add a b` gives back `a`. -/
theorem ossl_time_add_subtract_cancel (a b : OSSL_TIME)
    (h : a.t + b.t < UINT64_BOUND) :
    ossl_time_subtract (ossl_time_add a b) b = a := by
  have h1 : (ossl_time_add a b).t = a.t + b.t := add_t_of_lt h
  apply OSSL_TIME.ext
  rw [sub_t_of_le (by omega), h1]
  omega

/-- Witness for C10: applies cancellation at concrete times two and
three. -/
theorem ossl_time_add_subtract_cancel_witness :
    ossl_time_subtract
      (ossl_time_add (ossl_ticks2time 2 (by norm_num [UINT64_BOUND]))
        (ossl_ticks2time 3 (by norm_num [UINT64_BOUND])))
      (ossl_ticks2time 3 (by norm_num [UINT64_BOUND])) =
      ossl_ticks2time 2 (by norm_num [UINT64_BOUND]) :=
  ossl_time_add_subtract_cancel _ _
    (by norm_num [ossl_ticks2time, UINT64_BOUND])

end OsslTime
